import Mathlib

set_option maxRecDepth 4096

/-!
Shallow embedding of the thin atomic reference-counted pointer in
src/arc.rs (a weak-count-free alternative to the standard shared box).

The heap is a sequence of allocation slots; a slot holds an ArcInner
record (the atomic count together with the payload) while the allocation
is live, and none once it has been deallocated.  A handle (the Rust
value Arc) is the index of its allocation slot.  Machine integers are
modelled as Nat with explicit reduction modulo 2 ^ 64 where the source
performs wrapping atomic arithmetic.  Operations whose Rust counterpart
can abort the process (count overflow, allocation failure, failed
unwrap or assert) return a Res value with a dedicated fatal outcome;
operations that would dereference a dangling pointer (undefined
behavior in the source, reachable only through misuse of the unsafe
API) return the ub outcome.
-/

/-- Width of the address space: the number of values of usize on the
64-bit targets the crate is built for. -/
def usizeSize : Nat := 2 ^ 64

/-- usize::MAX, the maximum representable count. -/
def usizeMax : Nat := usizeSize - 1

/-- isize::MAX, the largest length accepted by slice::from_raw_parts. -/
def isizeMax : Nat := 2 ^ 63 - 1

/-- mem::size_of::<AtomicUsize>() on a 64-bit target. -/
def sizeOfAtomicUsize : Nat := 8

/-- mem::align_of::<AtomicUsize>() on a 64-bit target. -/
def alignOfAtomicUsize : Nat := 8

/-- The control block of one allocation: struct ArcInner { rc: AtomicUsize,
inner: T } from src/arc.rs.  The stored count is a usize value. -/
structure ArcInner (α : Type) : Type where
  rc : Nat
  inner : α
deriving Repr, DecidableEq

/-- The store of allocations.  Index p is the allocation a handle with
pointer p refers to; none marks a slot whose allocation has been
deallocated (freed memory is never reused, matching the fact that a
freed address is only observable through undefined behavior). -/
structure Heap (α : Type) : Type where
  mem : List (Option (ArcInner α))
deriving Repr, DecidableEq

/-- Read the allocation a pointer refers to, if it is live. -/
def Heap.lookup {α : Type} (h : Heap α) (p : Nat) : Option (ArcInner α) :=
  (h.mem[p]?).join

/-- Allocate a fresh block (the global allocator in the model always has
a fresh address available; an allocation failure in the source aborts
the process and is modelled where a claim depends on it). -/
def Heap.alloc {α : Type} (h : Heap α) (a : ArcInner α) : Heap α × Nat :=
  ({ mem := h.mem ++ [some a] }, h.mem.length)

/-- Overwrite a live allocation (a store through the pointer). -/
def Heap.update {α : Type} (h : Heap α) (p : Nat) (a : ArcInner α) : Heap α :=
  { mem := h.mem.set p (some a) }

/-- Return an allocation to the allocator. -/
def Heap.dealloc {α : Type} (h : Heap α) (p : Nat) : Heap α :=
  { mem := h.mem.set p none }

/-- Outcome of an operation: ub is undefined behavior (an access through
a dangling pointer), fatal is an immediate process abort or panic (no
value is ever returned to the caller), ok is normal completion. -/
inductive Res (β : Type) : Type where
  | ub : Res β
  | fatal : Res β
  | ok : β → Res β
deriving Repr, DecidableEq

/-- Arc::new: box up an ArcInner with the count starting at 1
(src/arc.rs lines 38-42). -/
def Arc.new {α : Type} (h : Heap α) (x : α) : Heap α × Nat :=
  h.alloc { rc := 1, inner := x }

/-- Arc::strong_count: an acquire load of the count field
(src/arc.rs lines 105-107).  none models the undefined read through a
dangling pointer. -/
def Arc.strong_count {α : Type} (h : Heap α) (p : Nat) : Option Nat :=
  (h.lookup p).map (fun a => a.rc)

/-- Deref for Arc: a read of the payload field (src/arc.rs lines 232-238). -/
def Arc.deref {α : Type} (h : Heap α) (p : Nat) : Option α :=
  (h.lookup p).map (fun a => a.inner)

/-- Clone for Arc (src/arc.rs lines 134-149): fetch_add(1, Relaxed) on
the count, then abort the process if the value before the increment was
usize::MAX.  The stored value is the wrapped sum; an abort makes any
state after the wrapping store unobservable, so the fatal outcome
carries no heap. -/
def Arc.clone {α : Type} (h : Heap α) (p : Nat) : Res (Heap α × Nat) :=
  match h.lookup p with
  | none => Res.ub
  | some a =>
      let last_count := a.rc
      if last_count = usizeMax then Res.fatal
      else Res.ok (h.update p { a with rc := (last_count + 1) % usizeSize }, p)

/-- Drop for Arc (src/arc.rs lines 151-161): rc = fetch_sub(1, Release) - 1
(the subtraction wraps in usize arithmetic); if the resulting count is 0,
an acquire fence and then deallocation of the whole block via
Box::from_raw. -/
def Arc.drop {α : Type} (h : Heap α) (p : Nat) : Res (Heap α) :=
  match h.lookup p with
  | none => Res.ub
  | some a =>
      let rc := (a.rc + usizeMax) % usizeSize
      if rc = 0 then Res.ok (h.dealloc p)
      else Res.ok (h.update p { a with rc := rc })

/-- Arc::get_mut (src/arc.rs lines 109-115): if the observed strong
count is 1, Some of the mutable reference to the payload (identified by
the pointer it grants access through), otherwise None. -/
def Arc.get_mut {α : Type} (h : Heap α) (p : Nat) : Res (Option Nat) :=
  match Arc.strong_count h p with
  | none => Res.ub
  | some c => Res.ok (if c = 1 then some p else none)

/-- A store through a mutable reference previously handed out by
get_mut or make_mut: overwrite the payload in place. -/
def Arc.write_mut {α : Type} (h : Heap α) (p : Nat) (x : α) : Res (Heap α) :=
  match h.lookup p with
  | none => Res.ub
  | some a => Res.ok (h.update p { a with inner := x })

/-- Arc::make_mut (src/arc.rs lines 118-126): if the observed strong
count is not 1, evaluate Arc::new on a clone of the payload and assign
it over the handle (the assignment drops the old handle, decrementing
the old allocation), then hand out the mutable reference that
Arc::get_mut(arc).unwrap() grants.  Returns the heap and the pointer
now held by the handle, which is also the target of the returned
mutable reference. -/
def Arc.make_mut {α : Type} (h : Heap α) (p : Nat) : Res (Heap α × Nat) :=
  match Arc.strong_count h p with
  | none => Res.ub
  | some c =>
      if c ≠ 1 then
        match Arc.deref h p with
        | none => Res.ub
        | some v =>
            let hq := Arc.new h v
            match Arc.drop hq.1 p with
            | Res.ok h2 => Res.ok (h2, hq.2)
            | _ => Res.ub
      else Res.ok (h, p)

/-- usize::checked_mul: the product, or none when it does not fit usize. -/
def checked_mul (a b : Nat) : Option Nat :=
  if a * b ≤ usizeMax then some (a * b) else none

/-- usize::checked_add: the sum, or none when it does not fit usize. -/
def checked_add (a b : Nat) : Option Nat :=
  if a + b ≤ usizeMax then some (a + b) else none

/-- usize::is_power_of_two, as checked by Layout::from_size_align: a
single bit is set, i.e. n is nonzero and n AND (n - 1) clears it. -/
def is_power_of_two (n : Nat) : Bool := n != 0 && (n &&& (n - 1)) == 0

/-- std::alloc::Layout: a validated size and alignment request. -/
structure Layout : Type where
  size : Nat
  align : Nat
deriving Repr, DecidableEq

/-- Layout::from_size_align: requires a power-of-two alignment and a
size that stays at most isize::MAX once rounded up to the alignment. -/
def Layout.from_size_align (size align : Nat) : Option Layout :=
  if is_power_of_two align = true ∧ size ≤ isizeMax - (align - 1)
  then some { size := size, align := align } else none

/-- Arc::copy_from_slice (src/arc.rs lines 46-71), parametrised by
size_of::<T>() and align_of::<T>() and by whether the global allocator
fails this request.  Every failing unwrap or assert on the path panics,
terminating the process: checked_mul of the data width, checked_add of
the total width, Layout::from_size_align, the non-null assert on the
allocation, and the isize::try_from length assert inside Arc::fatten
(src/arc.rs lines 75-83).  On success: one block holding the count,
initialised to 1, followed by the n copied elements. -/
def Arc.copy_from_slice {β : Type} (szT alignT : Nat) (alloc_fails : Bool)
    (h : Heap (List β)) (s : List β) : Res (Heap (List β) × Nat) :=
  let align := max alignT alignOfAtomicUsize
  let rc_width := max align sizeOfAtomicUsize
  match checked_mul szT s.length with
  | none => Res.fatal
  | some data_width =>
      match checked_add rc_width data_width with
      | none => Res.fatal
      | some size_unpadded =>
          let size_padded :=
            ((size_unpadded + align - 1) % usizeSize) &&& (usizeSize - align)
          match Layout.from_size_align size_padded align with
          | none => Res.fatal
          | some _ =>
              if alloc_fails then Res.fatal
              else if s.length ≤ isizeMax then
                Res.ok (h.alloc { rc := 1, inner := s })
              else Res.fatal

/-- From<&[T]> for Arc<[T]> with T: Copy (src/arc.rs lines 163-168):
delegates to copy_from_slice; the borrowed source slice is only read. -/
def Arc.from_slice {β : Type} (szT alignT : Nat) (alloc_fails : Bool)
    (h : Heap (List β)) (s : List β) : Res (Heap (List β) × Nat) :=
  Arc.copy_from_slice szT alignT alloc_fails h s

/-- From<Vec<T>> for Arc<[T]> (src/arc.rs lines 218-230): copy the
elements with copy_from_slice, then set the length of the vector to 0
so freeing it does not destruct the copied elements.  The pair returned
on success also carries the emptied vector. -/
def Arc.from_vec {β : Type} (szT alignT : Nat) (alloc_fails : Bool)
    (h : Heap (List β)) (v : List β) :
    Res ((Heap (List β) × Nat) × List β) :=
  match Arc.copy_from_slice szT alignT alloc_fails h v with
  | Res.ok arc => Res.ok (arc, [])
  | Res.fatal => Res.fatal
  | Res.ub => Res.ub

/-- From<Box<T>> for Arc<T> (src/arc.rs lines 171-216): allocate a
block shaped as ArcInner, write the count 1, move the value bytes in,
and free the old box without running Drop on the value.  The non-null
assert on the fresh allocation panics when the allocator fails. -/
def Arc.from_box {α : Type} (alloc_fails : Bool) (h : Heap α) (x : α) :
    Res (Heap α × Nat) :=
  if alloc_fails then Res.fatal
  else Res.ok (h.alloc { rc := 1, inner := x })

/-- Round n up to the next multiple of a (how repr(C) places a field
needing alignment a after n bytes of preceding fields). -/
def alignUp (n a : Nat) : Nat := ((n + a - 1) / a) * a

/-- Byte offset of the field inner inside the repr(C) struct
ArcInner<T> (src/arc.rs lines 18-22): the count occupies the leading
size_of::<AtomicUsize>() bytes and inner is placed at the next multiple
of align_of::<T>(). -/
def reprC_inner_offset (alignT : Nat) : Nat := alignUp sizeOfAtomicUsize alignT

/-- The header width recomputed by Arc::from_raw when deriving the
header address from a payload address (src/arc.rs lines 92-101). -/
def from_raw_rc_width (alignT : Nat) : Nat :=
  max (max alignT alignOfAtomicUsize) sizeOfAtomicUsize

/-- The header width computed by Arc::copy_from_slice at construction
time (src/arc.rs lines 47-50). -/
def cfs_rc_width (alignT : Nat) : Nat :=
  max (max alignT alignOfAtomicUsize) sizeOfAtomicUsize

/-- A raw payload address: the allocation it points into and the byte
offset from the start of that allocation. -/
structure RawPtr : Type where
  base : Nat
  off : Nat
deriving Repr, DecidableEq

/-- Arc::into_raw (src/arc.rs lines 85-90): take the address of
(*arc.ptr).inner, which sits at the repr(C) offset of inner past the
start of the allocation, and mem::forget the handle so its Drop never
runs: the heap, in particular the count, is untouched. -/
def Arc.into_raw {α : Type} (alignT : Nat) (h : Heap α) (p : Nat) :
    Heap α × RawPtr :=
  (h, { base := p, off := reprC_inner_offset alignT })

/-- Arc::from_raw (src/arc.rs lines 92-101): subtract the recomputed
header width from the payload address; the heap is untouched.  The
result is a valid handle exactly when the subtracted address lands back
on the start of the allocation (offset 0). -/
def Arc.from_raw {α : Type} (alignT : Nat) (h : Heap α) (r : RawPtr) :
    Heap α × RawPtr :=
  (h, { base := r.base, off := r.off - from_raw_rc_width alignT })

/-! Basic facts about the heap operations. -/

theorem Heap.lt_length_of_lookup {α : Type} {h : Heap α} {p : Nat}
    {a : ArcInner α} (hl : h.lookup p = some a) : p < h.mem.length := by
  by_contra hnp
  have hnone : h.mem[p]? = none := List.getElem?_eq_none (le_of_not_lt hnp)
  simp [Heap.lookup, hnone] at hl

theorem Heap.lookup_alloc_self {α : Type} (h : Heap α) (a : ArcInner α) :
    (h.alloc a).1.lookup (h.alloc a).2 = some a := by
  simp [Heap.alloc, Heap.lookup]

theorem Heap.lookup_alloc_lt {α : Type} (h : Heap α) (a : ArcInner α)
    {p : Nat} (hp : p < h.mem.length) :
    (h.alloc a).1.lookup p = h.lookup p := by
  simp [Heap.alloc, Heap.lookup, List.getElem?_append_left hp]

theorem Heap.lookup_update_self {α : Type} (h : Heap α) {p : Nat}
    (a : ArcInner α) (hp : p < h.mem.length) :
    (h.update p a).lookup p = some a := by
  simp [Heap.update, Heap.lookup, List.getElem?_set_eq_of_lt _ hp]

theorem Heap.lookup_update_ne {α : Type} (h : Heap α) {p q : Nat}
    (a : ArcInner α) (hpq : p ≠ q) :
    (h.update p a).lookup q = h.lookup q := by
  simp [Heap.update, Heap.lookup, List.getElem?_set_ne hpq]

theorem Heap.lookup_dealloc_self {α : Type} (h : Heap α) (p : Nat) :
    (h.dealloc p).lookup p = none := by
  rcases lt_or_le p h.mem.length with hp | hp
  · simp [Heap.dealloc, Heap.lookup, List.getElem?_set_eq_of_lt _ hp]
  · have hnone : (h.mem.set p none)[p]? = none :=
      List.getElem?_eq_none (by simpa using hp)
    simp [Heap.dealloc, Heap.lookup, hnone]

theorem Heap.lookup_dealloc_ne {α : Type} (h : Heap α) {p q : Nat}
    (hpq : p ≠ q) : (h.dealloc p).lookup q = h.lookup q := by
  simp [Heap.dealloc, Heap.lookup, List.getElem?_set_ne hpq]

theorem Heap.length_update {α : Type} (h : Heap α) (p : Nat)
    (a : ArcInner α) : (h.update p a).mem.length = h.mem.length := by
  simp [Heap.update]

theorem Heap.length_dealloc {α : Type} (h : Heap α) (p : Nat) :
    (h.dealloc p).mem.length = h.mem.length := by
  simp [Heap.dealloc]

theorem usizeSize_eq : usizeSize = 18446744073709551616 := by
  norm_num [usizeSize]

theorem usizeMax_eq : usizeMax = 18446744073709551615 := by
  norm_num [usizeMax, usizeSize]

theorem isizeMax_eq : isizeMax = 9223372036854775807 := by
  norm_num [isizeMax]

/-- A clone of a live handle below the overflow guard: the count is
replaced by its successor (the wrapping store does not wrap) and the
returned handle is the same pointer. -/
theorem Arc.clone_ok {α : Type} {h : Heap α} {p : Nat} {a : ArcInner α}
    (hl : h.lookup p = some a) (hrc : a.rc < usizeMax) :
    Arc.clone h p = Res.ok (h.update p { a with rc := a.rc + 1 }, p) := by
  have hmod : (a.rc + 1) % usizeSize = a.rc + 1 := by
    rw [usizeMax_eq] at hrc
    rw [usizeSize_eq]
    omega
  simp [Arc.clone, hl, Nat.ne_of_lt hrc, hmod]

/-- A drop of a live handle whose count is at least 2: the count is
replaced by its predecessor and no deallocation happens. -/
theorem Arc.drop_ok_live {α : Type} {h : Heap α} {p : Nat} {a : ArcInner α}
    (hl : h.lookup p = some a) (h2 : 2 ≤ a.rc) (hmax : a.rc ≤ usizeMax) :
    Arc.drop h p = Res.ok (h.update p { a with rc := a.rc - 1 }) := by
  have hmod : (a.rc + usizeMax) % usizeSize = a.rc - 1 := by
    rw [usizeMax_eq] at hmax ⊢
    rw [usizeSize_eq]
    omega
  have hne : a.rc - 1 ≠ 0 := by omega
  simp [Arc.drop, hl, hmod, hne]

/-- A drop of a live handle whose count is exactly 1: the decrement
reaches 0 and the block is deallocated. -/
theorem Arc.drop_ok_last {α : Type} {h : Heap α} {p : Nat} {a : ArcInner α}
    (hl : h.lookup p = some a) (h1 : a.rc = 1) :
    Arc.drop h p = Res.ok (h.dealloc p) := by
  have hmod : (a.rc + usizeMax) % usizeSize = 0 := by
    rw [usizeMax_eq, h1, usizeSize_eq]
  simp [Arc.drop, hl, hmod]

/-- n successive clones of the same handle (each returned handle points
at the same allocation, so every clone targets pointer p). -/
def Arc.cloneN {α : Type} : Nat → Heap α → Nat → Res (Heap α)
  | 0, h, _ => Res.ok h
  | n + 1, h, p =>
      match Arc.clone h p with
      | Res.ok hq => Arc.cloneN n hq.1 p
      | Res.fatal => Res.fatal
      | Res.ub => Res.ub

/-- n successive drops of handles pointing at the same allocation. -/
def Arc.dropN {α : Type} : Nat → Heap α → Nat → Res (Heap α)
  | 0, h, _ => Res.ok h
  | n + 1, h, p =>
      match Arc.drop h p with
      | Res.ok h2 => Arc.dropN n h2 p
      | Res.fatal => Res.fatal
      | Res.ub => Res.ub

theorem Arc.cloneN_ok {α : Type} :
    ∀ (n : Nat) (h : Heap α) (p : Nat) (a : ArcInner α),
    h.lookup p = some a → a.rc + n ≤ usizeMax →
    ∃ h1, Arc.cloneN n h p = Res.ok h1 ∧
      h1.lookup p = some { a with rc := a.rc + n } := by
  intro n
  induction n with
  | zero => intro h p a hl _; exact ⟨h, rfl, by simpa using hl⟩
  | succ n ih =>
      intro h p a hl hle
      have hrc : a.rc < usizeMax := by omega
      have hp : p < h.mem.length := Heap.lt_length_of_lookup hl
      have hstep := Arc.clone_ok hl hrc
      have hl1 : (h.update p { a with rc := a.rc + 1 }).lookup p
          = some { a with rc := a.rc + 1 } := Heap.lookup_update_self h _ hp
      obtain ⟨h1, hrun, hlook⟩ :=
        ih (h.update p { a with rc := a.rc + 1 }) p { a with rc := a.rc + 1 }
          hl1 (by simpa using by omega)
      refine ⟨h1, ?_, ?_⟩
      · simpa [Arc.cloneN, hstep] using hrun
      · simpa [Nat.add_assoc, Nat.add_comm 1 n] using hlook

theorem Arc.dropN_ok {α : Type} :
    ∀ (n : Nat) (h : Heap α) (p : Nat) (a : ArcInner α),
    h.lookup p = some a → n < a.rc → a.rc ≤ usizeMax →
    ∃ h2, Arc.dropN n h p = Res.ok h2 ∧
      h2.lookup p = some { a with rc := a.rc - n } := by
  intro n
  induction n with
  | zero => intro h p a hl _ _; exact ⟨h, rfl, by simpa using hl⟩
  | succ n ih =>
      intro h p a hl hlt hmax
      have h2 : 2 ≤ a.rc := by omega
      have hp : p < h.mem.length := Heap.lt_length_of_lookup hl
      have hstep := Arc.drop_ok_live hl h2 hmax
      have hl1 : (h.update p { a with rc := a.rc - 1 }).lookup p
          = some { a with rc := a.rc - 1 } := Heap.lookup_update_self h _ hp
      obtain ⟨h2', hrun, hlook⟩ :=
        ih (h.update p { a with rc := a.rc - 1 }) p { a with rc := a.rc - 1 }
          hl1 (by simp; omega) (by simp; omega)
      refine ⟨h2', ?_, ?_⟩
      · simpa [Arc.dropN, hstep] using hrun
      · have : a.rc - 1 - n = a.rc - (n + 1) := by omega
        simpa [this] using hlook

theorem Arc.strong_count_eq_some {α : Type} {h : Heap α} {p c : Nat}
    (hc : Arc.strong_count h p = some c) :
    ∃ a : ArcInner α, h.lookup p = some a ∧ a.rc = c := by
  unfold Arc.strong_count at hc
  cases hl : h.lookup p with
  | none => rw [hl] at hc; simp at hc
  | some a => rw [hl] at hc; simp at hc; exact ⟨a, rfl, hc⟩

/-- A heap used to instantiate the generic theorems: one live
allocation at pointer 0 holding the value 42 at count 1. -/
def sampleHeap : Heap Nat := { mem := [some { rc := 1, inner := 42 }] }

/-- C1: for every handle to a live allocation, clone increases the
observed strong count by exactly 1 and returns a handle to the same
allocation, a drop of a co-owner decreases it by exactly 1, and any n
clones followed by n drops leave the observed count unchanged. -/
theorem c1_clone_drop_count {α : Type} (h : Heap α) (p n c : Nat)
    (hc : Arc.strong_count h p = some c)
    (hpos : 1 ≤ c) (hn : c + n ≤ usizeMax) :
    (c < usizeMax →
      ∃ h1, Arc.clone h p = Res.ok (h1, p) ∧
        Arc.strong_count h1 p = some (c + 1)) ∧
    (2 ≤ c →
      ∃ h1, Arc.drop h p = Res.ok h1 ∧
        Arc.strong_count h1 p = some (c - 1)) ∧
    (∃ h1 h2, Arc.cloneN n h p = Res.ok h1 ∧
      Arc.strong_count h1 p = some (c + n) ∧
      Arc.dropN n h1 p = Res.ok h2 ∧
      Arc.strong_count h2 p = some c) := by
  obtain ⟨a, hl, hac⟩ := Arc.strong_count_eq_some hc
  subst hac
  have hp : p < h.mem.length := Heap.lt_length_of_lookup hl
  refine ⟨?_, ?_, ?_⟩
  · intro hlt
    refine ⟨h.update p { a with rc := a.rc + 1 }, Arc.clone_ok hl hlt, ?_⟩
    simp [Arc.strong_count, Heap.lookup_update_self h _ hp]
  · intro h2
    refine ⟨h.update p { a with rc := a.rc - 1 },
      Arc.drop_ok_live hl h2 (by omega), ?_⟩
    simp [Arc.strong_count, Heap.lookup_update_self h _ hp]
  · obtain ⟨h1, hrun1, hlook1⟩ := Arc.cloneN_ok n h p a hl hn
    obtain ⟨h2, hrun2, hlook2⟩ :=
      Arc.dropN_ok n h1 p { a with rc := a.rc + n } hlook1
        (by simp; omega) (by simpa using hn)
    refine ⟨h1, h2, hrun1, ?_, hrun2, ?_⟩
    · simp [Arc.strong_count, hlook1]
    · simp [Arc.strong_count, hlook2]

/-- Witness for C1: the sample heap, two clones and two drops. -/
theorem c1_clone_drop_count_witness :
    Arc.strong_count sampleHeap 0 = some 1 ∧ 1 ≤ 1 ∧ 1 + 2 ≤ usizeMax ∧
    ((1 < usizeMax →
      ∃ h1, Arc.clone sampleHeap 0 = Res.ok (h1, 0) ∧
        Arc.strong_count h1 0 = some (1 + 1)) ∧
    (2 ≤ 1 →
      ∃ h1, Arc.drop sampleHeap 0 = Res.ok h1 ∧
        Arc.strong_count h1 0 = some (1 - 1)) ∧
    (∃ h1 h2, Arc.cloneN 2 sampleHeap 0 = Res.ok h1 ∧
      Arc.strong_count h1 0 = some (1 + 2) ∧
      Arc.dropN 2 h1 0 = Res.ok h2 ∧
      Arc.strong_count h2 0 = some 1)) :=
  ⟨by decide, by decide, by decide,
    c1_clone_drop_count sampleHeap 0 2 1 (by decide) (by decide) (by decide)⟩

/-- Inversion for a successful copy_from_slice: a success means none of
the checks fired, and the result is a fresh block with count 1 holding
the copied elements. -/
theorem Arc.copy_from_slice_ok {β : Type} {szT alignT : Nat} {af : Bool}
    {h : Heap (List β)} {s : List β} {res : Heap (List β) × Nat}
    (hok : Arc.copy_from_slice szT alignT af h s = Res.ok res) :
    res = h.alloc { rc := 1, inner := s } ∧ af = false ∧
    s.length ≤ isizeMax ∧ szT * s.length ≤ usizeMax := by
  simp only [Arc.copy_from_slice] at hok
  split at hok
  next => exact absurd hok (by simp)
  next dw hm =>
    split at hok
    next => exact absurd hok (by simp)
    next su ha =>
      split at hok
      next => exact absurd hok (by simp)
      next lay hlay =>
        split at hok
        next haf => exact absurd hok (by simp)
        next haf =>
          split at hok
          next hlen =>
            refine ⟨by injection hok with hh; exact hh.symm,
              by simpa using haf, hlen, ?_⟩
            simp only [checked_mul] at hm
            split at hm
            next hle => omega
            next => exact absurd hm (by simp)
          next => exact absurd hok (by simp)

theorem Arc.strong_count_alloc {α : Type} (h : Heap α) (a : ArcInner α) :
    Arc.strong_count (h.alloc a).1 (h.alloc a).2 = some a.rc := by
  simp [Arc.strong_count, Heap.lookup_alloc_self]

/-- An empty heap of sequence allocations, used to instantiate the
slice and vector constructors. -/
def emptyListHeap : Heap (List Nat) := { mem := [] }

/-- C3: every construction path (Arc::new on a single value, From of a
boxed value, From of a borrowed slice of copyable elements, From of an
owned vector) yields a handle whose observed strong count is exactly 1. -/
theorem c3_construct_count_one {α β : Type} (h : Heap α) (x : α)
    (hs : Heap (List β)) (szT alignT : Nat) (s v : List β) :
    Arc.strong_count (Arc.new h x).1 (Arc.new h x).2 = some 1 ∧
    (∀ hb q, Arc.from_box false h x = Res.ok (hb, q) →
      Arc.strong_count hb q = some 1) ∧
    (∀ h1 q, Arc.from_slice szT alignT false hs s = Res.ok (h1, q) →
      Arc.strong_count h1 q = some 1) ∧
    (∀ h1 q rest, Arc.from_vec szT alignT false hs v = Res.ok ((h1, q), rest) →
      Arc.strong_count h1 q = some 1) := by
  refine ⟨Arc.strong_count_alloc h _, ?_, ?_, ?_⟩
  · intro hb q hok
    have hpair : (h.alloc { rc := 1, inner := x }) = (hb, q) := by
      simpa [Arc.from_box] using hok
    have hb_eq : hb = (h.alloc { rc := 1, inner := x }).1 := by rw [hpair]
    have q_eq : q = (h.alloc { rc := 1, inner := x }).2 := by rw [hpair]
    rw [hb_eq, q_eq]
    exact Arc.strong_count_alloc h _
  · intro h1 q hok
    obtain ⟨hres, -, -, -⟩ :=
      Arc.copy_from_slice_ok (by simpa [Arc.from_slice] using hok)
    have h1_eq : h1 = (hs.alloc { rc := 1, inner := s }).1 := by rw [← hres]
    have q_eq : q = (hs.alloc { rc := 1, inner := s }).2 := by rw [← hres]
    rw [h1_eq, q_eq]
    exact Arc.strong_count_alloc hs _
  · intro h1 q rest hok
    unfold Arc.from_vec at hok
    cases hm : Arc.copy_from_slice szT alignT false hs v with
    | ub => rw [hm] at hok; exact absurd hok (by simp)
    | fatal => rw [hm] at hok; exact absurd hok (by simp)
    | ok arc =>
        rw [hm] at hok
        have harc : (h1, q) = arc := by
          injection hok with hh
          exact (congrArg Prod.fst hh).symm
        obtain ⟨hres, -, -, -⟩ := Arc.copy_from_slice_ok hm
        have h1_eq : h1 = (hs.alloc { rc := 1, inner := v }).1 := by
          rw [← (harc.trans hres)]
        have q_eq : q = (hs.alloc { rc := 1, inner := v }).2 := by
          rw [← (harc.trans hres)]
        rw [h1_eq, q_eq]
        exact Arc.strong_count_alloc hs _

/-- Witness for C3: a value handle over 42 and a slice handle over
the sequence 1, 2, 3. -/
theorem c3_construct_count_one_witness :
    Arc.strong_count (Arc.new ({ mem := [] } : Heap Nat) 42).1
      (Arc.new ({ mem := [] } : Heap Nat) 42).2 = some 1 ∧
    (∀ hb q, Arc.from_box false ({ mem := [] } : Heap Nat) 42 = Res.ok (hb, q) →
      Arc.strong_count hb q = some 1) ∧
    (∀ h1 q, Arc.from_slice 4 4 false emptyListHeap [1, 2, 3] = Res.ok (h1, q) →
      Arc.strong_count h1 q = some 1) ∧
    (∀ h1 q rest, Arc.from_vec 4 4 false emptyListHeap [1, 2, 3]
        = Res.ok ((h1, q), rest) →
      Arc.strong_count h1 q = some 1) :=
  c3_construct_count_one { mem := [] } 42 emptyListHeap 4 4 [1, 2, 3] [1, 2, 3]

/-- C4: get_mut returns a present mutable reference if and only if the
observed strong count is exactly 1; whenever the count observed is
greater than 1 it returns None. -/
theorem c4_get_mut_iff_unique {α : Type} (h : Heap α) (p c : Nat)
    (hc : Arc.strong_count h p = some c) :
    ((∃ r, Arc.get_mut h p = Res.ok (some r)) ↔ c = 1) ∧
    Arc.get_mut h p = Res.ok (if c = 1 then some p else none) ∧
    (1 < c → Arc.get_mut h p = Res.ok none) := by
  unfold Arc.get_mut
  rw [hc]
  refine ⟨⟨?_, ?_⟩, rfl, ?_⟩
  · rintro ⟨r, hr⟩
    by_contra hne
    simp [hne] at hr
  · intro h1
    exact ⟨p, by simp [h1]⟩
  · intro hgt
    have hne : c ≠ 1 := by omega
    simp [hne]

/-- Witness for C4: on the sample heap the count is 1 and get_mut is
present; instantiating the same theorem at a two-owner heap shows the
absent case through the if. -/
theorem c4_get_mut_iff_unique_witness :
    Arc.strong_count sampleHeap 0 = some 1 ∧
    (((∃ r, Arc.get_mut sampleHeap 0 = Res.ok (some r)) ↔ (1 : Nat) = 1) ∧
    Arc.get_mut sampleHeap 0 = Res.ok (if (1 : Nat) = 1 then some 0 else none) ∧
    (1 < 1 → Arc.get_mut sampleHeap 0 = Res.ok none)) :=
  ⟨by decide, c4_get_mut_iff_unique sampleHeap 0 1 (by decide)⟩

/-- C10: make_mut on a handle whose observed count is 1 mutates in
place: no new allocation, the same pointer, the same heap, count still
1, payload untouched. -/
theorem c10_make_mut_in_place {α : Type} (h : Heap α) (p : Nat)
    (hc : Arc.strong_count h p = some 1) :
    Arc.make_mut h p = Res.ok (h, p) ∧
    (∀ h2 q, Arc.make_mut h p = Res.ok (h2, q) →
      h2 = h ∧ q = p ∧ h2.mem.length = h.mem.length ∧
      Arc.deref h2 q = Arc.deref h p ∧ Arc.strong_count h2 q = some 1) := by
  have hm : Arc.make_mut h p = Res.ok (h, p) := by
    unfold Arc.make_mut
    rw [hc]
    simp
  refine ⟨hm, ?_⟩
  intro h2 q hok
  rw [hm] at hok
  injection hok with hh
  have h2eq : h2 = h := (congrArg Prod.fst hh).symm
  have qeq : q = p := (congrArg Prod.snd hh).symm
  subst h2eq
  subst qeq
  exact ⟨rfl, rfl, rfl, rfl, hc⟩

/-- Witness for C10: the sample single-owner heap. -/
theorem c10_make_mut_in_place_witness :
    Arc.strong_count sampleHeap 0 = some 1 ∧
    (Arc.make_mut sampleHeap 0 = Res.ok (sampleHeap, 0) ∧
    (∀ h2 q, Arc.make_mut sampleHeap 0 = Res.ok (h2, q) →
      h2 = sampleHeap ∧ q = 0 ∧ h2.mem.length = sampleHeap.mem.length ∧
      Arc.deref h2 q = Arc.deref sampleHeap 0 ∧
      Arc.strong_count h2 q = some 1)) :=
  ⟨by decide, c10_make_mut_in_place sampleHeap 0 (by decide)⟩

/-- A heap with one live allocation at pointer 0 holding 42 at count 2,
as after one clone of the sample handle. -/
def sampleHeap2 : Heap Nat := { mem := [some { rc := 2, inner := 42 }] }

/-- C5: make_mut on a handle whose observed count is greater than 1
performs copy-on-write: the handle ends up at a distinct fresh
allocation with count 1 holding a value-equal payload, the old
allocation loses exactly the one reference the handle held, and writing
through the returned mutable reference never changes the value observed
through handles to the original allocation. -/
theorem c5_make_mut_copy_on_write {α : Type} (h : Heap α) (p c : Nat) (v : α)
    (hc : Arc.strong_count h p = some c) (hv : Arc.deref h p = some v)
    (hgt : 1 < c) (hmax : c ≤ usizeMax) :
    ∃ h2 q, Arc.make_mut h p = Res.ok (h2, q) ∧
      q ≠ p ∧
      Arc.strong_count h2 q = some 1 ∧
      Arc.deref h2 q = some v ∧
      Arc.strong_count h2 p = some (c - 1) ∧
      Arc.deref h2 p = some v ∧
      (∀ x h3, Arc.write_mut h2 q x = Res.ok h3 →
        Arc.deref h3 p = Arc.deref h2 p) := by
  obtain ⟨a, hl, hac⟩ := Arc.strong_count_eq_some hc
  have hva : a.inner = v := by
    unfold Arc.deref at hv
    rw [hl] at hv
    simpa using hv
  subst hac
  subst hva
  have hp : p < h.mem.length := Heap.lt_length_of_lookup hl
  have hne : p ≠ h.mem.length := by omega
  -- the allocation of the fresh copy
  have hl1 : (h.alloc { rc := 1, inner := a.inner }).1.lookup p = some a := by
    rw [Heap.lookup_alloc_lt h _ hp]
    exact hl
  have hdrop := Arc.drop_ok_live hl1 (by omega) (by omega)
  have hcne : ¬ a.rc = 1 := by omega
  have hmk : Arc.make_mut h p =
      Res.ok ((h.alloc { rc := 1, inner := a.inner }).1.update p
        { a with rc := a.rc - 1 }, h.mem.length) := by
    unfold Arc.make_mut
    rw [hc]
    simp only [hcne, if_true, if_false, ite_not, hv]
    have hdrop2 := hdrop
    simp only [Heap.alloc] at hdrop2
    simp [Arc.new, Heap.alloc, hdrop2]
  refine ⟨_, _, hmk, Ne.symm hne, ?_, ?_, ?_, ?_, ?_⟩
  · have : ((h.alloc { rc := 1, inner := a.inner }).1.update p
        { a with rc := a.rc - 1 }).lookup h.mem.length
        = some { rc := 1, inner := a.inner } := by
      rw [Heap.lookup_update_ne _ _ hne]
      exact Heap.lookup_alloc_self h _
    simp [Arc.strong_count, this]
  · have : ((h.alloc { rc := 1, inner := a.inner }).1.update p
        { a with rc := a.rc - 1 }).lookup h.mem.length
        = some { rc := 1, inner := a.inner } := by
      rw [Heap.lookup_update_ne _ _ hne]
      exact Heap.lookup_alloc_self h _
    simp [Arc.deref, this]
  · have hplen : p < (h.alloc { rc := 1, inner := a.inner }).1.mem.length := by
      simp [Heap.alloc]
      omega
    have : ((h.alloc { rc := 1, inner := a.inner }).1.update p
        { a with rc := a.rc - 1 }).lookup p
        = some { a with rc := a.rc - 1 } :=
      Heap.lookup_update_self _ _ hplen
    simp [Arc.strong_count, this]
  · have hplen : p < (h.alloc { rc := 1, inner := a.inner }).1.mem.length := by
      simp [Heap.alloc]
      omega
    have : ((h.alloc { rc := 1, inner := a.inner }).1.update p
        { a with rc := a.rc - 1 }).lookup p
        = some { a with rc := a.rc - 1 } :=
      Heap.lookup_update_self _ _ hplen
    simp [Arc.deref, this]
  · intro x h3 hw
    unfold Arc.write_mut at hw
    cases hlq : ((h.alloc { rc := 1, inner := a.inner }).1.update p
        { a with rc := a.rc - 1 }).lookup h.mem.length with
    | none => rw [hlq] at hw; exact absurd hw (by simp)
    | some b =>
        rw [hlq] at hw
        have h3eq : h3 = ((h.alloc { rc := 1, inner := a.inner }).1.update p
            { a with rc := a.rc - 1 }).update h.mem.length
            { b with inner := x } := by
          injection hw with hh
          exact hh.symm
        rw [h3eq]
        unfold Arc.deref
        rw [Heap.lookup_update_ne _ _ (Ne.symm hne)]

/-- Witness for C5: copy-on-write from the two-owner sample heap. -/
theorem c5_make_mut_copy_on_write_witness :
    Arc.strong_count sampleHeap2 0 = some 2 ∧
    Arc.deref sampleHeap2 0 = some 42 ∧ 1 < 2 ∧ 2 ≤ usizeMax ∧
    (∃ h2 q, Arc.make_mut sampleHeap2 0 = Res.ok (h2, q) ∧
      q ≠ 0 ∧
      Arc.strong_count h2 q = some 1 ∧
      Arc.deref h2 q = some 42 ∧
      Arc.strong_count h2 0 = some (2 - 1) ∧
      Arc.deref h2 0 = some 42 ∧
      (∀ x h3, Arc.write_mut h2 q x = Res.ok h3 →
        Arc.deref h3 0 = Arc.deref h2 0)) :=
  ⟨by decide, by decide, by decide, by decide,
    c5_make_mut_copy_on_write sampleHeap2 0 2 42 (by decide) (by decide)
      (by decide) (by decide)⟩

/-- Inversion for a successful clone: the target was live and only its
count changed. -/
theorem Arc.clone_ok_inv {α : Type} {h h1 : Heap α} {p q : Nat}
    (hs : Arc.clone h p = Res.ok (h1, q)) :
    ∃ a : ArcInner α, h.lookup p = some a ∧
      h1 = h.update p { a with rc := (a.rc + 1) % usizeSize } ∧ q = p := by
  unfold Arc.clone at hs
  cases hl : h.lookup p with
  | none => rw [hl] at hs; exact absurd hs (by simp)
  | some a =>
      rw [hl] at hs
      simp only [] at hs
      split at hs
      · exact absurd hs (by simp)
      · refine ⟨a, rfl, ?_, ?_⟩
        · injection hs with hh
          exact (congrArg Prod.fst hh).symm
        · injection hs with hh
          exact (congrArg Prod.snd hh).symm

/-- Inversion for a successful drop: the target was live and the heap
either lost that allocation or only its count changed. -/
theorem Arc.drop_ok_inv {α : Type} {h h1 : Heap α} {p : Nat}
    (hs : Arc.drop h p = Res.ok h1) :
    ∃ a : ArcInner α, h.lookup p = some a ∧
      (h1 = h.dealloc p ∨
        h1 = h.update p { a with rc := (a.rc + usizeMax) % usizeSize }) := by
  unfold Arc.drop at hs
  cases hl : h.lookup p with
  | none => rw [hl] at hs; exact absurd hs (by simp)
  | some a =>
      rw [hl] at hs
      simp only [] at hs
      split at hs
      · exact ⟨a, rfl, Or.inl (Res.ok.inj hs).symm⟩
      · exact ⟨a, rfl, Or.inr (Res.ok.inj hs).symm⟩

/-- One step of the clone/drop protocol on some handle of the heap
(the transitions of section 4.4 of the specification). -/
inductive ArcStep {α : Type} : Heap α → Heap α → Prop where
  | clone (h h1 : Heap α) (p q : Nat)
      (hs : Arc.clone h p = Res.ok (h1, q)) : ArcStep h h1
  | drop (h h1 : Heap α) (p : Nat)
      (hs : Arc.drop h p = Res.ok h1) : ArcStep h h1

/-- A deallocated slot stays deallocated across any single clone or
drop step, and these steps never grow the heap. -/
theorem ArcStep.preserves_dead {α : Type} {h h1 : Heap α}
    (st : ArcStep h h1) {p : Nat} (hdead : h.lookup p = none) :
    h1.lookup p = none ∧ h1.mem.length = h.mem.length := by
  cases st with
  | clone t q hs =>
      obtain ⟨a, hl, hheq, -⟩ := Arc.clone_ok_inv hs
      have htp : t ≠ p := by
        intro he
        rw [he, hdead] at hl
        exact absurd hl (by simp)
      subst hheq
      exact ⟨(Heap.lookup_update_ne h _ htp).trans hdead,
        Heap.length_update h t _⟩
  | drop t hs =>
      obtain ⟨a, hl, hheq⟩ := Arc.drop_ok_inv hs
      have htp : t ≠ p := by
        intro he
        rw [he, hdead] at hl
        exact absurd hl (by simp)
      cases hheq with
      | inl he =>
          subst he
          exact ⟨(Heap.lookup_dealloc_ne h htp).trans hdead,
            Heap.length_dealloc h t⟩
      | inr he =>
          subst he
          exact ⟨(Heap.lookup_update_ne h _ htp).trans hdead,
            Heap.length_update h t _⟩

/-- C2: the allocation is deallocated exactly once, by the drop whose
decrement brings the count to 0; a drop whose resulting count is
nonzero deallocates nothing and leaves the allocation live; and once
deallocated, no sequence of clone and drop steps ever revives the
slot, nor does any clone or drop of a handle to it complete normally. -/
theorem c2_dealloc_exactly_once {α : Type} (h : Heap α) (p c : Nat)
    (hc : Arc.strong_count h p = some c) (hmax : c ≤ usizeMax) :
    (c = 1 → Arc.drop h p = Res.ok (h.dealloc p) ∧
      Arc.strong_count (h.dealloc p) p = none) ∧
    (2 ≤ c → ∃ h1, Arc.drop h p = Res.ok h1 ∧
      Arc.strong_count h1 p = some (c - 1) ∧
      h1.mem.length = h.mem.length) ∧
    (∀ h1 h2 : Heap α, h1.lookup p = none →
      Relation.ReflTransGen ArcStep h1 h2 → h2.lookup p = none) ∧
    (∀ h1 : Heap α, h1.lookup p = none →
      Arc.clone h1 p = Res.ub ∧ Arc.drop h1 p = Res.ub) := by
  obtain ⟨a, hl, hac⟩ := Arc.strong_count_eq_some hc
  subst hac
  have hp : p < h.mem.length := Heap.lt_length_of_lookup hl
  refine ⟨?_, ?_, ?_, ?_⟩
  · intro h1
    refine ⟨Arc.drop_ok_last hl h1, ?_⟩
    simp [Arc.strong_count, Heap.lookup_dealloc_self]
  · intro h2
    refine ⟨h.update p { a with rc := a.rc - 1 },
      Arc.drop_ok_live hl h2 hmax, ?_, Heap.length_update h p _⟩
    simp [Arc.strong_count, Heap.lookup_update_self h _ hp]
  · intro h1 h2 hdead hrt
    induction hrt with
    | refl => exact hdead
    | tail hseg st ih => exact (ArcStep.preserves_dead st ih).1
  · intro h1 hdead
    constructor
    · unfold Arc.clone
      rw [hdead]
    · unfold Arc.drop
      rw [hdead]

/-- Witness for C2: dropping the single owner of the sample heap frees
the slot for good. -/
theorem c2_dealloc_exactly_once_witness :
    Arc.strong_count sampleHeap 0 = some 1 ∧ 1 ≤ usizeMax ∧
    (((1 : Nat) = 1 → Arc.drop sampleHeap 0 = Res.ok (sampleHeap.dealloc 0) ∧
      Arc.strong_count (sampleHeap.dealloc 0) 0 = none) ∧
    (2 ≤ 1 → ∃ h1, Arc.drop sampleHeap 0 = Res.ok h1 ∧
      Arc.strong_count h1 0 = some (1 - 1) ∧
      h1.mem.length = sampleHeap.mem.length) ∧
    (∀ h1 h2 : Heap Nat, h1.lookup 0 = none →
      Relation.ReflTransGen ArcStep h1 h2 → h2.lookup 0 = none) ∧
    (∀ h1 : Heap Nat, h1.lookup 0 = none →
      Arc.clone h1 0 = Res.ub ∧ Arc.drop h1 0 = Res.ub)) :=
  ⟨by decide, by decide,
    c2_dealloc_exactly_once sampleHeap 0 1 (by decide) (by decide)⟩

theorem alignUp_eq_of_dvd {n a : Nat} (ha : 0 < a) (hdvd : a ∣ n) :
    alignUp n a = n := by
  obtain ⟨m, hm⟩ := hdvd
  subst hm
  unfold alignUp
  have hdiv : (a * m + a - 1) / a = m := by
    have hrw : a * m + a - 1 = (a - 1) + m * a := by
      rw [Nat.mul_comm a m]
      omega
    rw [hrw, Nat.add_mul_div_right _ _ ha, Nat.div_eq_of_lt (by omega)]
    omega
  rw [hdiv, Nat.mul_comm]

theorem alignUp_eq_of_le {n a : Nat} (hn : 0 < n) (hna : n ≤ a) :
    alignUp n a = a := by
  unfold alignUp
  have hdiv : (n + a - 1) / a = 1 := by
    apply Nat.div_eq_of_lt_le
    · omega
    · omega
  rw [hdiv, Nat.one_mul]

/-- The repr(C) offset of the payload field equals the header width
Arc::from_raw subtracts, for every real payload alignment (2 ^ k). -/
theorem inner_offset_eq_rc_width (k : Nat) :
    reprC_inner_offset (2 ^ k) = from_raw_rc_width (2 ^ k) := by
  unfold reprC_inner_offset from_raw_rc_width sizeOfAtomicUsize
    alignOfAtomicUsize
  rcases le_or_lt k 3 with hk | hk
  · have hdvd : 2 ^ k ∣ 8 := by
      have h8 : (8 : Nat) = 2 ^ 3 := by norm_num
      rw [h8]
      exact pow_dvd_pow 2 hk
    have hle : 2 ^ k ≤ 8 := Nat.le_of_dvd (by norm_num) hdvd
    rw [alignUp_eq_of_dvd (Nat.pos_pow_of_pos k (by norm_num)) hdvd,
      Nat.max_eq_right hle, Nat.max_self]
  · have hge : 8 ≤ 2 ^ k := by
      calc (8 : Nat) = 2 ^ 3 := by norm_num
        _ ≤ 2 ^ k := Nat.pow_le_pow_right (by norm_num) (by omega)
    rw [alignUp_eq_of_le (by norm_num) hge, Nat.max_eq_left hge,
      Nat.max_eq_left hge]

/-- The payload stays aligned: the header width is a multiple of the
payload alignment. -/
theorem align_dvd_rc_width (k : Nat) : 2 ^ k ∣ from_raw_rc_width (2 ^ k) := by
  unfold from_raw_rc_width sizeOfAtomicUsize alignOfAtomicUsize
  rcases le_or_lt k 3 with hk | hk
  · have hdvd : 2 ^ k ∣ 8 := by
      have h8 : (8 : Nat) = 2 ^ 3 := by norm_num
      rw [h8]
      exact pow_dvd_pow 2 hk
    have hle : 2 ^ k ≤ 8 := Nat.le_of_dvd (by norm_num) hdvd
    rw [Nat.max_eq_right hle, Nat.max_self]
    exact hdvd
  · have hge : 8 ≤ 2 ^ k := by
      calc (8 : Nat) = 2 ^ 3 := by norm_num
        _ ≤ 2 ^ k := Nat.pow_le_pow_right (by norm_num) (by omega)
    rw [Nat.max_eq_left hge, Nat.max_eq_left hge]

/-- C7: for every payload alignment 2 ^ k, the header width subtracted
by Arc::from_raw equals both the repr(C) offset at which construction
places the payload after the count (Arc::new, From of a box) and the
rc width used by Arc::copy_from_slice; it is the max of the payload
alignment and the counter width, it keeps the payload aligned, and it
covers the counter. -/
theorem c7_layout_agreement (k : Nat) :
    reprC_inner_offset (2 ^ k) = from_raw_rc_width (2 ^ k) ∧
    cfs_rc_width (2 ^ k) = from_raw_rc_width (2 ^ k) ∧
    from_raw_rc_width (2 ^ k) =
      max (max (2 ^ k) alignOfAtomicUsize) sizeOfAtomicUsize ∧
    2 ^ k ∣ from_raw_rc_width (2 ^ k) ∧
    sizeOfAtomicUsize ≤ from_raw_rc_width (2 ^ k) := by
  refine ⟨inner_offset_eq_rc_width k, rfl, rfl, align_dvd_rc_width k, ?_⟩
  unfold from_raw_rc_width
  exact Nat.le_max_right _ _

/-- C6: the raw round trip from_raw(into_raw(h)) is the identity on
the handle: the reconstructed pointer lands exactly on the start of the
same allocation, the heap is untouched across both calls, and in
particular no increment or decrement of the strong count occurs. -/
theorem c6_raw_round_trip {α : Type} (k : Nat) (h : Heap α) (p : Nat) :
    Arc.from_raw (2 ^ k) (Arc.into_raw (2 ^ k) h p).1
      (Arc.into_raw (2 ^ k) h p).2 = (h, { base := p, off := 0 }) ∧
    (Arc.from_raw (2 ^ k) (Arc.into_raw (2 ^ k) h p).1
      (Arc.into_raw (2 ^ k) h p).2).1 = h ∧
    Arc.strong_count (Arc.from_raw (2 ^ k) (Arc.into_raw (2 ^ k) h p).1
      (Arc.into_raw (2 ^ k) h p).2).1 p = Arc.strong_count h p ∧
    Arc.deref (Arc.from_raw (2 ^ k) (Arc.into_raw (2 ^ k) h p).1
      (Arc.into_raw (2 ^ k) h p).2).1 p = Arc.deref h p := by
  refine ⟨?_, rfl, rfl, rfl⟩
  unfold Arc.from_raw Arc.into_raw
  simp only [inner_offset_eq_rc_width k]
  simp [Nat.sub_self]

theorem Arc.copy_from_slice_fatal_mul {β : Type} (szT alignT : Nat)
    (af : Bool) (hs : Heap (List β)) (s : List β)
    (hmul : usizeMax < szT * s.length) :
    Arc.copy_from_slice szT alignT af hs s = Res.fatal := by
  unfold Arc.copy_from_slice
  have hm : checked_mul szT s.length = none := by
    unfold checked_mul
    rw [if_neg (Nat.not_le.mpr hmul)]
  rw [hm]

theorem Arc.copy_from_slice_fatal_len {β : Type} (szT alignT : Nat)
    (hs : Heap (List β)) (s : List β) (hlen : isizeMax < s.length) :
    Arc.copy_from_slice szT alignT false hs s = Res.fatal := by
  simp only [Arc.copy_from_slice]
  split
  · rfl
  · split
    · rfl
    · split
      · rfl
      · rw [if_neg (by simp), if_neg (Nat.not_le.mpr hlen)]

theorem Arc.copy_from_slice_fatal_alloc {β : Type} (szT alignT : Nat)
    (hs : Heap (List β)) (s : List β) :
    Arc.copy_from_slice szT alignT true hs s = Res.fatal := by
  simp only [Arc.copy_from_slice]
  split
  · rfl
  · split
    · rfl
    · split
      · rfl
      · simp

/-- C9: every failure of the primitive is fatal and returns no error
value: a clone whose pre-increment count is usize::MAX aborts before
any wrapped count becomes observable (a clone that completes leaves a
count that did not wrap), an unrepresentable element-count times
element-size product panics in copy_from_slice, a length exceeding
isize::MAX panics inside fatten, and an allocator failure panics at
the non-null assert in copy_from_slice and in From of a box. -/
theorem c9_fatal_only_failures {α β : Type} (h : Heap α) (p c : Nat) (x : α)
    (hc : Arc.strong_count h p = some c) (hcmax : c ≤ usizeMax)
    (szT alignT : Nat) (hs : Heap (List β)) (s : List β) :
    (c = usizeMax → Arc.clone h p = Res.fatal) ∧
    (∀ h1 q, Arc.clone h p = Res.ok (h1, q) →
      c < usizeMax ∧ Arc.strong_count h1 p = some (c + 1)) ∧
    (usizeMax < szT * s.length →
      Arc.copy_from_slice szT alignT false hs s = Res.fatal) ∧
    (isizeMax < s.length →
      Arc.copy_from_slice szT alignT false hs s = Res.fatal) ∧
    Arc.copy_from_slice szT alignT true hs s = Res.fatal ∧
    Arc.from_box true h x = Res.fatal := by
  obtain ⟨a, hl, hac⟩ := Arc.strong_count_eq_some hc
  subst hac
  have hp : p < h.mem.length := Heap.lt_length_of_lookup hl
  refine ⟨?_, ?_, Arc.copy_from_slice_fatal_mul szT alignT false hs s,
    Arc.copy_from_slice_fatal_len szT alignT hs s,
    Arc.copy_from_slice_fatal_alloc szT alignT hs s, by simp [Arc.from_box]⟩
  · intro hceq
    unfold Arc.clone
    rw [hl]
    simp [hceq]
  · intro h1 q hok
    have hne : a.rc ≠ usizeMax := by
      intro hceq
      unfold Arc.clone at hok
      rw [hl] at hok
      simp [hceq] at hok
    have hlt : a.rc < usizeMax := by omega
    rw [Arc.clone_ok hl hlt] at hok
    have hh1 : h1 = h.update p { a with rc := a.rc + 1 } := by
      injection hok with hh
      exact (congrArg Prod.fst hh).symm
    subst hh1
    exact ⟨hlt, by simp [Arc.strong_count, Heap.lookup_update_self h _ hp]⟩

/-- Witness for C9: a count already at usize::MAX aborts on clone, an
oversized slice request dies on the checked multiply or the length
assert, and failed allocations panic. -/
theorem c9_fatal_only_failures_witness :
    Arc.strong_count ({ mem := [some { rc := usizeMax, inner := 0 }] }
      : Heap Nat) 0 = some usizeMax ∧ usizeMax ≤ usizeMax ∧
    ((usizeMax = usizeMax →
      Arc.clone ({ mem := [some { rc := usizeMax, inner := 0 }] } : Heap Nat) 0
        = Res.fatal) ∧
    (∀ h1 q, Arc.clone ({ mem := [some { rc := usizeMax, inner := 0 }] }
        : Heap Nat) 0 = Res.ok (h1, q) →
      usizeMax < usizeMax ∧ Arc.strong_count h1 0 = some (usizeMax + 1)) ∧
    (usizeMax < 4 * ([] : List Nat).length →
      Arc.copy_from_slice 4 4 false emptyListHeap [] = Res.fatal) ∧
    (isizeMax < ([] : List Nat).length →
      Arc.copy_from_slice 4 4 false emptyListHeap [] = Res.fatal) ∧
    Arc.copy_from_slice 4 4 true emptyListHeap [] = Res.fatal ∧
    Arc.from_box true ({ mem := [some { rc := usizeMax, inner := 0 }] }
      : Heap Nat) 7 = Res.fatal) :=
  ⟨by decide, by decide,
    c9_fatal_only_failures { mem := [some { rc := usizeMax, inner := 0 }] }
      0 usizeMax 7 (by decide) (by decide) 4 4 emptyListHeap []⟩

/-- C8: constructing from a borrowed sequence of copyable elements
yields a handle whose observed sequence has the same length and the
same elements as the source; the source sequence is only read (it is a
pure value in the model, and every allocation that existed before the
call is left untouched). -/
theorem c8_from_slice_copies {β : Type} (szT alignT : Nat)
    (h : Heap (List β)) (s : List β) (h1 : Heap (List β)) (q : Nat)
    (hok : Arc.from_slice szT alignT false h s = Res.ok (h1, q)) :
    Arc.deref h1 q = some s ∧
    (∃ l, Arc.deref h1 q = some l ∧ l.length = s.length ∧
      ∀ i : Nat, l[i]? = s[i]?) ∧
    (∀ r, r < h.mem.length → h1.lookup r = h.lookup r) := by
  obtain ⟨hres, -, -, -⟩ :=
    Arc.copy_from_slice_ok (by simpa [Arc.from_slice] using hok)
  have h1_eq : h1 = (h.alloc { rc := 1, inner := s }).1 := by rw [← hres]
  have q_eq : q = (h.alloc { rc := 1, inner := s }).2 := by rw [← hres]
  subst h1_eq
  subst q_eq
  have hderef : Arc.deref (h.alloc { rc := 1, inner := s }).1
      (h.alloc { rc := 1, inner := s }).2 = some s := by
    simp [Arc.deref, Heap.lookup_alloc_self]
  refine ⟨hderef, ⟨s, hderef, rfl, fun i => rfl⟩, ?_⟩
  intro r hr
  exact Heap.lookup_alloc_lt h _ hr

/-- Witness for C8: the borrowed sequence 1, 2, 3 of the concrete
scenario in the specification. -/
theorem c8_from_slice_copies_witness :
    Arc.from_slice 4 4 false emptyListHeap [1, 2, 3]
      = Res.ok ({ mem := [some { rc := 1, inner := [1, 2, 3] }] }, 0) ∧
    (Arc.deref ({ mem := [some { rc := 1, inner := [1, 2, 3] }] }
        : Heap (List Nat)) 0 = some [1, 2, 3] ∧
    (∃ l, Arc.deref ({ mem := [some { rc := 1, inner := [1, 2, 3] }] }
        : Heap (List Nat)) 0 = some l ∧ l.length = [1, 2, 3].length ∧
      ∀ i : Nat, l[i]? = [1, 2, 3][i]?) ∧
    (∀ r, r < emptyListHeap.mem.length →
      Heap.lookup ({ mem := [some { rc := 1, inner := [1, 2, 3] }] }
        : Heap (List Nat)) r = emptyListHeap.lookup r)) :=
  ⟨by decide,
    c8_from_slice_copies 4 4 emptyListHeap [1, 2, 3]
      { mem := [some { rc := 1, inner := [1, 2, 3] }] } 0 (by decide)⟩
